import Mathlib

/-!
Shallow embedding of the PIC24F pattern-authentication system
(src/main.c of AdityaDk10/UbicompLab-Pic24).

The credential store (`userDatabase`, `userCount`) is modelled as a `DB`
structure threaded explicitly through the operations.  Machine integers are
modelled as `Nat`/`Int`; the only place where overflow matters in the claims
is the 16-bit truncation of captured inter-touch timings, written `% 65536`,
and the 8-bit increment of the failed-attempt counter, written `% 256`.
-/

namespace Pic24

/-- Account record, mirroring the C `User` struct (main.c lines 73-80).
`pattern` has 5 entries and `timing` 4 entries in every reachable state. -/
structure User where
  userId : Int
  pattern : List Nat
  isActive : Bool
  failedAttempts : Nat
  isLoggedIn : Bool
  timing : List Nat
deriving DecidableEq, Repr

/-- The all-zero record produced by `InitDatabase` / `DeleteUser`. -/
def clearedUser : User :=
  { userId := 0
    pattern := List.replicate 5 0
    isActive := false
    failedAttempts := 0
    isLoggedIn := false
    timing := List.replicate 4 0 }

/-- The credential store: the global `userDatabase[10]` array plus the
global `userCount` (main.c lines 83-84). -/
structure DB where
  users : List User
  count : Nat
deriving DecidableEq, Repr

/-- `InitDatabase` (main.c lines 92-106): all ten slots zeroed, count 0. -/
def initDB : DB :=
  { users := List.replicate 10 clearedUser, count := 0 }

/-- Index of the first element satisfying `p`, mirroring the C pattern of a
for-loop over the array that returns the first matching index. -/
def scanIdx (p : User → Bool) : List User → Option Nat
  | [] => none
  | u :: rest => cond (p u) (some 0) ((scanIdx p rest).map (· + 1))

/-- Slot holding account `id`: `FindUser` (main.c lines 109-116).  `none`
models the C return value `-1`. -/
def findUser (db : DB) (id : Int) : Option Nat :=
  scanIdx (fun u => u.isActive && (u.userId == id)) db.users

/-- Lowest-index free slot, the allocation scan inside `RegisterUser`
(main.c lines 141-156). -/
def firstFree (db : DB) : Option Nat :=
  scanIdx (fun u => !u.isActive) db.users

/-- The slot at index `i` (reads of `userDatabase[i]`). -/
def userAt (db : DB) (i : Nat) : User :=
  db.users.getD i clearedUser

/-- `ComparePatterns` (main.c lines 119-126): element-wise comparison of the
first `PATTERN_LENGTH = 5` entries. -/
def comparePatterns (p1 p2 : List Nat) : Bool :=
  (List.range 5).all (fun i => p1.getD i 0 == p2.getD i 0)

/-- The record stored for a newly registered account: the first 5 pattern
entries and first 4 timing entries are copied, the slot is activated with
zero failed attempts and not logged in (main.c lines 143-152). -/
def mkUser (id : Int) (pat tim : List Nat) : User :=
  { userId := id
    pattern := (List.range 5).map (fun j => pat.getD j 0)
    isActive := true
    failedAttempts := 0
    isLoggedIn := false
    timing := (List.range 4).map (fun j => tim.getD j 0) }

/-- `RegisterUser` (main.c lines 129-159): fails when `userCount >= 10` or
the id is already present, else writes the lowest-index free slot and
increments the count. -/
def registerUser (db : DB) (id : Int) (pat tim : List Nat) : DB × Bool :=
  if 10 ≤ db.count then (db, false)
  else
    match findUser db id with
    | some _ => (db, false)
    | none =>
      match firstFree db with
      | some i =>
        ({ users := db.users.set i (mkUser id pat tim), count := db.count + 1 }, true)
      | none => (db, false)

/-- Output of `ValidateLogin`: return value, `*timingWarningOut`, and the
`segmentMatches[4]` array. -/
structure VOut where
  ok : Bool
  warning : Bool
  seg : List Bool
deriving DecidableEq, Repr

/-- `(stored > input) ? (stored - input) : (input - stored)`
(main.c line 199). -/
def distU (a b : Nat) : Nat :=
  if b < a then a - b else b - a

/-- One timing segment of `ValidateLogin` (main.c lines 190-207): a zero on
either side is a mismatch (guarding the division), otherwise the segment
matches when the percentage difference is at most 40. -/
def segMatch (stored input : Nat) : Bool :=
  if stored = 0 || input = 0 then false
  else decide (distU stored input * 100 / stored ≤ 40)

/-- The early-return output of `ValidateLogin`: failure with the
`segmentMatches` array still holding the zeros written at entry
(main.c lines 169-179). -/
def failOut : VOut :=
  { ok := false, warning := false, seg := List.replicate 4 false }

/-- The per-segment analysis loop of `ValidateLogin` (main.c lines
189-208) as the list of the four segment verdicts. -/
def segList (stored tim : List Nat) : List Bool :=
  (List.range 4).map (fun i => segMatch (stored.getD i 0) (tim.getD i 0))

/-- `ValidateLogin` (main.c lines 165-221).  The `DB` component of the
result is the store as left by the call: the C function only reads
`userDatabase` and writes its out-parameters, so every branch returns the
store it was given. -/
def validateLogin (db : DB) (id : Int) (pat tim : List Nat) : DB × VOut :=
  match findUser db id with
  | none => (db, failOut)
  | some idx =>
    let u := userAt db idx
    if !(comparePatterns u.pattern pat) then
      (db, failOut)
    else
      let seg := segList u.timing tim
      let matched := seg.count true
      if matched < 2 then (db, { ok := false, warning := false, seg := seg })
      else (db, { ok := true, warning := decide (matched < 4), seg := seg })

/-- `DeleteUser` (main.c lines 224-244): zero the slot, decrement the
count. -/
def deleteUser (db : DB) (id : Int) : DB × Bool :=
  match findUser db id with
  | none => (db, false)
  | some i =>
    ({ users := db.users.set i clearedUser, count := db.count - 1 }, true)

/-- `UnlockUser` (main.c lines 247-256): reset `failedAttempts` to 0. -/
def unlockUser (db : DB) (id : Int) : DB × Bool :=
  match findUser db id with
  | none => (db, false)
  | some i =>
    ({ users := db.users.set i { userAt db i with failedAttempts := 0 }, count := db.count }, true)

/-- Outcome of the LOGIN menu flow as observable to the user. -/
inductive LoginOutcome
  | invalidId
  | locked
  | success (warning : Bool) (seg : List Bool)
  | failed (nowLocked : Bool)
deriving DecidableEq, Repr

/-- The LOGIN flow of `main` (main.c lines 1214-1344), from the point where
the id has been collected; the pattern and timing collected afterwards are
parameters.  Lock check before validation; on success the slot's
`failedAttempts` is reset and `isLoggedIn` set; on failure `failedAttempts`
is incremented (8-bit). -/
def loginFlow (db : DB) (id : Int) (pat tim : List Nat) : DB × LoginOutcome :=
  match findUser db id with
  | none => (db, .invalidId)
  | some idx =>
    if 3 ≤ (userAt db idx).failedAttempts then (db, .locked)
    else
      let res := validateLogin db id pat tim
      let db1 := res.1
      let r := res.2
      if r.ok then
        let u := userAt db1 idx
        ({ users := db1.users.set idx { u with failedAttempts := 0, isLoggedIn := true },
           count := db1.count },
         .success r.warning r.seg)
      else
        let u := userAt db1 idx
        let fa := (u.failedAttempts + 1) % 256
        ({ users := db1.users.set idx { u with failedAttempts := fa }, count := db1.count },
         .failed (3 ≤ fa))

/-- Outcome of the DELETE menu flow as observable to the user. -/
inductive DeleteOutcome
  | emptyDb
  | invalidId
  | authFailed
  | deleted
  | deleteFailed
  | cancelled
deriving DecidableEq, Repr

/-- The DELETE flow of `main` (main.c lines 1346-1434), from the point where
the id has been collected.  It validates with `ValidateLogin` but performs
no lock check and never touches `failedAttempts` or `isLoggedIn`; `confirm`
models the CENTER-button confirmation. -/
def deleteFlow (db : DB) (id : Int) (pat tim : List Nat) (confirm : Bool) :
    DB × DeleteOutcome :=
  if db.count = 0 then (db, .emptyDb)
  else
    match findUser db id with
    | none => (db, .invalidId)
    | some _ =>
      let res := validateLogin db id pat tim
      let db1 := res.1
      if res.2.ok then
        if confirm then
          let d := deleteUser db1 id
          (d.1, if d.2 then .deleted else .deleteFailed)
        else (db1, .cancelled)
      else (db1, .authFailed)

/-- Number of active slots. -/
def activeCount (db : DB) : Nat :=
  db.users.countP (fun u => u.isActive)

/-- The store invariant: ten slots, and `userCount` equal to the number of
active slots. -/
def Inv (db : DB) : Prop :=
  db.users.length = 10 ∧ db.count = activeCount db

instance : DecidablePred Inv := fun db => by
  unfold Inv; infer_instance

/-! ### Pattern Capture (`CollectPattern`, main.c lines 904-976)

The blocking capture loop is embedded as a step function on an explicit
session state driven by a finite trace of raw five-boolean touch readings;
`collectPattern` returns `some` exactly when the loop's exit condition
(five accepted elements) is reached within the trace. -/

/-- Transient state of one `CollectPattern` session (the local variables of
the C function): accepted pattern so far, recorded timings, the five
aggregates, the last accepted channel (`0xFF` modelled as `none`), and the
tick counters. -/
structure CapState where
  pat : List Nat
  tim : List Nat
  aggr : List Nat
  lastButton : Option Nat
  lastButtonTime : Nat
  currentTime : Nat
deriving DecidableEq, Repr

/-- Initial session state (main.c lines 905-917). -/
def initCap : CapState :=
  { pat := [], tim := [], aggr := List.replicate 5 0
    lastButton := none, lastButtonTime := 0, currentTime := 0 }

/-- One tick of aggregate update (main.c lines 929-934): increment while the
raw reading is true, decrement otherwise, clamped to [0, 30]. -/
def updAggr (aggr : List Nat) (r : List Bool) : List Nat :=
  (List.range 5).map (fun i =>
    if r.getD i false then min (aggr.getD i 0 + 1) 30 else aggr.getD i 0 - 1)

/-- One iteration of the maximum scan (main.c lines 939-944): strict
comparison against the running maximum. -/
def maxStep (aggr : List Nat) (acc : Nat × Option Nat) (i : Nat) : Nat × Option Nat :=
  if acc.1 < aggr.getD i 0 then (aggr.getD i 0, some i) else acc

/-- The channel reported for one tick (main.c lines 937-944): the first
channel achieving the strict maximum aggregate, provided it exceeds the
threshold 6; `none` models `0xFF`. -/
def findMaxButton (aggr : List Nat) : Option Nat :=
  ((List.range 5).foldl (maxStep aggr) (6, none)).2

/-- Acceptance of channel `cb` as the next pattern element (main.c lines
953-966): record the elapsed ticks times the 10 ms interval, truncated to
16 bits, when this is not the first element; append `cb + 1` to the
pattern; remember the accepted channel and its tick. -/
def capAccept (s : CapState) (a : List Nat) (cb : Nat) : CapState :=
  { pat := s.pat ++ [cb + 1]
    tim :=
      if 0 < s.pat.length then
        s.tim ++ [((s.currentTime - s.lastButtonTime) * 10) % 65536]
      else s.tim
    aggr := a
    lastButton := some cb
    lastButtonTime := s.currentTime
    currentTime := s.currentTime }

/-- One iteration of the `CollectPattern` loop body (main.c lines 925-971)
for one raw reading: update aggregates, accept the detected channel as the
next pattern element only if it differs from the last accepted channel and
is not already in the pattern. -/
def capStep (s : CapState) (r : List Bool) : CapState :=
  match findMaxButton (updAggr s.aggr r) with
  | none => { s with aggr := updAggr s.aggr r, currentTime := s.currentTime + 1 }
  | some cb =>
    if (some cb != s.lastButton) && !(s.pat.contains (cb + 1)) then
      { capAccept s (updAggr s.aggr r) cb with
        currentTime := (capAccept s (updAggr s.aggr r) cb).currentTime + 1 }
    else { s with aggr := updAggr s.aggr r, currentTime := s.currentTime + 1 }

/-- The `while (patternLen < PATTERN_LENGTH)` loop, driven by a finite
trace; `some` is the function returning its out-parameters. -/
def collectPatternAux (s : CapState) : List (List Bool) → Option (List Nat × List Nat)
  | [] => if 5 ≤ s.pat.length then some (s.pat, s.tim) else none
  | r :: rest =>
    if 5 ≤ s.pat.length then some (s.pat, s.tim)
    else collectPatternAux (capStep s r) rest

/-- `CollectPattern` on a trace of raw readings. -/
def collectPattern (trace : List (List Bool)) : Option (List Nat × List Nat) :=
  collectPatternAux initCap trace

/-! ### Concrete stores used in counterexamples and witnesses -/

/-- A store holding the single account id 12, pattern 1-2-3-4-5, timings
all 300 ms, with `failedAttempts = 3` (locked). -/
def dbLockedA : DB :=
  { users :=
      { userId := 12, pattern := [1, 2, 3, 4, 5], isActive := true
        failedAttempts := 3, isLoggedIn := false
        timing := [300, 300, 300, 300] } :: List.replicate 9 clearedUser
    count := 1 }

/-- Like `dbLockedA` but with stored pattern 2-1-3-4-5. -/
def dbLockedB : DB :=
  { users :=
      { userId := 12, pattern := [2, 1, 3, 4, 5], isActive := true
        failedAttempts := 3, isLoggedIn := false
        timing := [300, 300, 300, 300] } :: List.replicate 9 clearedUser
    count := 1 }

/-- A store holding the single unlocked account id 12 (no failed
attempts). -/
def dbFresh : DB :=
  { users :=
      { userId := 12, pattern := [1, 2, 3, 4, 5], isActive := true
        failedAttempts := 0, isLoggedIn := false
        timing := [300, 300, 300, 300] } :: List.replicate 9 clearedUser
    count := 1 }

/-- Raw-reading block: channel `c` held, all others idle. -/
def holdChan (c : Nat) (n : Nat) : List (List Bool) :=
  List.replicate n ((List.range 5).map (fun i => i == c))

/-- A trace swiping channels 1,2,3,4,5 in order, each held 10 ticks. -/
def swipeTrace : List (List Bool) :=
  holdChan 0 10 ++ holdChan 1 10 ++ holdChan 2 10 ++ holdChan 3 10 ++ holdChan 4 10

/-- The store operations (the callers' alphabet for the table invariant):
insert, delete, unlock, bare validation, and the two menu flows that
perform validation. -/
inductive Op
  | register (id : Int) (pat tim : List Nat)
  | delete (id : Int)
  | unlock (id : Int)
  | validate (id : Int) (pat tim : List Nat)
  | login (id : Int) (pat tim : List Nat)
  | remove (id : Int) (pat tim : List Nat) (confirm : Bool)

/-- Effect of one store operation on the table. -/
def applyOp (db : DB) : Op → DB
  | .register id pat tim => (registerUser db id pat tim).1
  | .delete id => (deleteUser db id).1
  | .unlock id => (unlockUser db id).1
  | .validate id pat tim => (validateLogin db id pat tim).1
  | .login id pat tim => (loginFlow db id pat tim).1
  | .remove id pat tim confirm => (deleteFlow db id pat tim confirm).1

/-- Invariant on a pattern-capture session state: the accepted pattern is
duplicate-free with entries in [1..5]. -/
def CapInv (s : CapState) : Prop :=
  s.pat.Nodup ∧ ∀ x ∈ s.pat, 1 ≤ x ∧ x ≤ 5

/-! ### Generic list helper lemmas -/

theorem getD_set_self {α : Type} {l : List α} {i : Nat} {u d : α}
    (h : i < l.length) : (l.set i u).getD i d = u := by
  induction l generalizing i with
  | nil => simp at h
  | cons a rest ih =>
    cases i with
    | zero => rfl
    | succ n =>
      have : (a :: rest).set (n + 1) u = a :: rest.set n u := rfl
      rw [this, List.getD_cons_succ]
      exact ih (Nat.lt_of_succ_lt_succ h)

theorem getD_set_of_ne {α : Type} {l : List α} {i j : Nat} {u d : α}
    (h : j ≠ i) : (l.set i u).getD j d = l.getD j d := by
  induction l generalizing i j with
  | nil => simp [List.set]
  | cons a rest ih =>
    cases i with
    | zero =>
      cases j with
      | zero => exact absurd rfl h
      | succ m => rfl
    | succ n =>
      cases j with
      | zero => rfl
      | succ m =>
        have hstep : (a :: rest).set (n + 1) u = a :: rest.set n u := rfl
        rw [hstep, List.getD_cons_succ, List.getD_cons_succ]
        exact ih (fun hc => h (by rw [hc]))

theorem nodup_append_singleton {α : Type} {l : List α} {a : α}
    (h : l.Nodup) (ha : a ∉ l) : (l ++ [a]).Nodup := by
  rw [List.nodup_append]
  refine ⟨h, List.nodup_singleton a, ?_⟩
  intro x hx
  simp only [List.mem_singleton]
  intro hxa
  exact ha (hxa ▸ hx)

/-! ### Specification of the linear scans -/

theorem scanIdx_eq_none {p : User → Bool} {l : List User} :
    scanIdx p l = none ↔ ∀ u ∈ l, p u = false := by
  induction l with
  | nil => simp [scanIdx]
  | cons a rest ih =>
    cases hpa : p a with
    | true =>
      simp only [scanIdx, hpa, cond_true]
      constructor
      · intro h; cases h
      · intro h
        have := h a (List.mem_cons_self a rest)
        rw [hpa] at this
        cases this
    | false =>
      simp only [scanIdx, hpa, cond_false]
      cases hrest : scanIdx p rest with
      | none =>
        simp only [hrest, Option.map_none']
        constructor
        · intro _ u hu
          rcases List.mem_cons.mp hu with rfl | hu2
          · exact hpa
          · exact ih.mp hrest u hu2
        · intro _; trivial
      | some k =>
        simp only [hrest, Option.map_some']
        constructor
        · intro h; cases h
        · intro hall
          have : scanIdx p rest = none := ih.mpr (fun u hu => hall u (List.mem_cons_of_mem a hu))
          rw [hrest] at this
          cases this

theorem scanIdx_some_spec {p : User → Bool} {l : List User} {i : Nat}
    (h : scanIdx p l = some i) :
    i < l.length ∧ p (l.getD i clearedUser) = true ∧
      ∀ j < i, p (l.getD j clearedUser) = false := by
  induction l generalizing i with
  | nil => cases h
  | cons a rest ih =>
    cases hpa : p a with
    | true =>
      rw [scanIdx, hpa, cond_true] at h
      cases h
      exact ⟨Nat.succ_pos _, hpa, fun j hj => absurd hj (Nat.not_lt_zero j)⟩
    | false =>
      rw [scanIdx, hpa, cond_false] at h
      cases hrest : scanIdx p rest with
      | none => rw [hrest] at h; cases h
      | some k =>
        rw [hrest, Option.map_some'] at h
        cases h
        obtain ⟨hlen, hat, hbefore⟩ := ih hrest
        refine ⟨Nat.succ_lt_succ hlen, by simpa using hat, ?_⟩
        intro j hj
        cases j with
        | zero => simpa using hpa
        | succ m =>
          rw [List.getD_cons_succ]
          exact hbefore m (Nat.lt_of_succ_lt_succ hj)

theorem scanIdx_set_self {p : User → Bool} {l : List User} {i : Nat} {u : User}
    (hlen : i < l.length)
    (hbefore : ∀ j < i, p (l.getD j clearedUser) = false)
    (hu : p u = true) : scanIdx p (l.set i u) = some i := by
  induction l generalizing i with
  | nil => simp at hlen
  | cons a rest ih =>
    cases i with
    | zero =>
      have hset : (a :: rest).set 0 u = u :: rest := rfl
      rw [hset, scanIdx, hu, cond_true]
    | succ n =>
      have hstep : (a :: rest).set (n + 1) u = a :: rest.set n u := rfl
      have hpa : p a = false := by simpa using hbefore 0 (Nat.succ_pos n)
      rw [hstep, scanIdx, hpa, cond_false]
      have hn : scanIdx p (rest.set n u) = some n := by
        refine ih (Nat.lt_of_succ_lt_succ hlen) ?_
        intro j hj
        have := hbefore (j + 1) (Nat.succ_lt_succ hj)
        simpa using this
      rw [hn, Option.map_some']

/-! ### Counting active slots across `set` -/

theorem countP_set_same {α : Type} {p : α → Bool} {l : List α} {i : Nat} {u d : α}
    (h : i < l.length) (hsame : p u = p (l.getD i d)) :
    (l.set i u).countP p = l.countP p := by
  induction l generalizing i with
  | nil => simp at h
  | cons a rest ih =>
    cases i with
    | zero =>
      have hset : (a :: rest).set 0 u = u :: rest := rfl
      rw [hset, List.countP_cons, List.countP_cons]
      have : p u = p a := by simpa using hsame
      rw [this]
    | succ n =>
      have hset : (a :: rest).set (n + 1) u = a :: rest.set n u := rfl
      rw [hset, List.countP_cons, List.countP_cons,
        ih (Nat.lt_of_succ_lt_succ h) (by simpa using hsame)]

theorem countP_set_activate {α : Type} {p : α → Bool} {l : List α} {i : Nat} {u d : α}
    (h : i < l.length) (hold : p (l.getD i d) = false) (hnew : p u = true) :
    (l.set i u).countP p = l.countP p + 1 := by
  induction l generalizing i with
  | nil => simp at h
  | cons a rest ih =>
    cases i with
    | zero =>
      have hset : (a :: rest).set 0 u = u :: rest := rfl
      have hpa : p a = false := by simpa using hold
      rw [hset, List.countP_cons, List.countP_cons, hpa, hnew]
      simp
    | succ n =>
      have hset : (a :: rest).set (n + 1) u = a :: rest.set n u := rfl
      rw [hset, List.countP_cons, List.countP_cons,
        ih (Nat.lt_of_succ_lt_succ h) (by simpa using hold)]
      omega

theorem countP_set_deactivate {α : Type} {p : α → Bool} {l : List α} {i : Nat} {u d : α}
    (h : i < l.length) (hold : p (l.getD i d) = true) (hnew : p u = false) :
    l.countP p = (l.set i u).countP p + 1 := by
  induction l generalizing i with
  | nil => simp at h
  | cons a rest ih =>
    cases i with
    | zero =>
      have hset : (a :: rest).set 0 u = u :: rest := rfl
      have hpa : p a = true := by simpa using hold
      rw [hset, List.countP_cons, List.countP_cons, hpa, hnew]
      simp
    | succ n =>
      have hset : (a :: rest).set (n + 1) u = a :: rest.set n u := rfl
      rw [hset, List.countP_cons, List.countP_cons,
        ih (Nat.lt_of_succ_lt_succ h) (by simpa using hold)]
      omega

/-! ### Validation engine: branch characterizations -/

theorem comparePatterns_eq_true {p1 p2 : List Nat} :
    comparePatterns p1 p2 = true ↔ ∀ i < 5, p1.getD i 0 = p2.getD i 0 := by
  simp [comparePatterns, List.all_eq_true, List.mem_range]

theorem segMatch_eq_true {s t : Nat} :
    segMatch s t = true ↔ (s ≠ 0 ∧ t ≠ 0 ∧ distU s t * 100 / s ≤ 40) := by
  by_cases hs : s = 0 <;> by_cases ht : t = 0 <;> simp [segMatch, hs, ht]

theorem segList_getD {st tm : List Nat} {i : Nat} (h : i < 4) :
    (segList st tm).getD i false = segMatch (st.getD i 0) (tm.getD i 0) := by
  have hlen : (segList st tm).length = 4 := by simp [segList]
  rw [List.getD_eq_getElem _ _ (by omega)]
  simp [segList]

theorem validateLogin_not_found {db : DB} {id : Int} {pat tim : List Nat}
    (h : findUser db id = none) :
    validateLogin db id pat tim = (db, failOut) := by
  unfold validateLogin
  rw [h]

theorem validateLogin_bad_pattern {db : DB} {id : Int} {pat tim : List Nat} {idx : Nat}
    (hfind : findUser db id = some idx)
    (hc : comparePatterns (userAt db idx).pattern pat = false) :
    validateLogin db id pat tim = (db, failOut) := by
  unfold validateLogin
  rw [hfind]
  simp [hc]

theorem validateLogin_pattern_ok {db : DB} {id : Int} {pat tim : List Nat} {idx : Nat}
    (hfind : findUser db id = some idx)
    (hc : comparePatterns (userAt db idx).pattern pat = true) :
    validateLogin db id pat tim =
      (db,
       if (segList (userAt db idx).timing tim).count true < 2 then
         { ok := false, warning := false, seg := segList (userAt db idx).timing tim }
       else
         { ok := true, warning := decide ((segList (userAt db idx).timing tim).count true < 4),
           seg := segList (userAt db idx).timing tim }) := by
  unfold validateLogin
  rw [hfind]
  simp only [hc, Bool.not_true]
  by_cases hm : (segList (userAt db idx).timing tim).count true < 2
  · simp [hm]
  · simp [hm]

theorem validateLogin_fst (db : DB) (id : Int) (pat tim : List Nat) :
    (validateLogin db id pat tim).1 = db := by
  cases hf : findUser db id with
  | none => rw [validateLogin_not_found hf]
  | some idx =>
    cases hc : comparePatterns (userAt db idx).pattern pat with
    | false => rw [validateLogin_bad_pattern hf hc]
    | true =>
      rw [validateLogin_pattern_ok hf hc]

/-! ### Claim theorems -/

/-- Claim C10: `ValidateLogin` never mutates the credential store: for
every call, every field of every slot of the user table and the count are
identical before and after the call, whatever the outcome; all store
mutation on validation outcomes is performed by the surrounding
lockout/caller logic. -/
theorem c10_validateLogin_frame :
    ∀ (db : DB) (id : Int) (pat tim : List Nat),
      (validateLogin db id pat tim).1 = db :=
  fun db id pat tim => validateLogin_fst db id pat tim

/-- Claim C2: for every stored account and every submitted pattern that
differs from the stored pattern in at least one position, `ValidateLogin`
returns Fail and the `perSegmentMatch` output array is all-zero; no timing
segment is evaluated after a pattern mismatch (the output array keeps the
zeros written at entry), and likewise when the id is not found. -/
theorem c2_pattern_mismatch_hard_gate :
    ∀ (db : DB) (id : Int) (pat tim : List Nat),
      (findUser db id = none ∨
        ∃ idx, findUser db id = some idx ∧
          ∃ j, j < 5 ∧ (userAt db idx).pattern.getD j 0 ≠ pat.getD j 0) →
      (validateLogin db id pat tim).2.ok = false ∧
      (validateLogin db id pat tim).2.seg = List.replicate 4 false := by
  intro db id pat tim h
  rcases h with h | ⟨idx, hfind, j, hj, hne⟩
  · rw [validateLogin_not_found h]
    exact ⟨rfl, rfl⟩
  · have hc : comparePatterns (userAt db idx).pattern pat = false := by
      cases hb : comparePatterns (userAt db idx).pattern pat with
      | false => rfl
      | true => exact absurd (comparePatterns_eq_true.mp hb j hj) hne
    rw [validateLogin_bad_pattern hfind hc]
    exact ⟨rfl, rfl⟩

/-- Witness for C2 at a concrete store: account 12 exists with stored
pattern 1-2-3-4-5 and the submitted pattern differs at position 0. -/
theorem c2_pattern_mismatch_hard_gate_witness :
    (validateLogin dbFresh 12 [2, 1, 3, 4, 5] [300, 300, 300, 300]).2.ok = false ∧
    (validateLogin dbFresh 12 [2, 1, 3, 4, 5] [300, 300, 300, 300]).2.seg =
      List.replicate 4 false :=
  c2_pattern_mismatch_hard_gate dbFresh 12 [2, 1, 3, 4, 5] [300, 300, 300, 300]
    (Or.inr ⟨0, by decide, 0, by decide, by decide⟩)

/-- Claim C3: for each of the four timing segments, `ValidateLogin` marks
the segment a match if and only if both the stored and the submitted
duration are nonzero and `|stored − submitted| × 100 / stored ≤ 40`; a zero
on either side makes the segment a mismatch, and the guard precedes the
division so it is never taken with a zero divisor (stated through the
nonzero conjuncts of the equivalence). -/
theorem c3_segment_tolerance :
    ∀ (db : DB) (id : Int) (pat tim : List Nat) (idx : Nat),
      findUser db id = some idx →
      comparePatterns (userAt db idx).pattern pat = true →
      ∀ i, i < 4 →
        ((validateLogin db id pat tim).2.seg.getD i false = true ↔
          ((userAt db idx).timing.getD i 0 ≠ 0 ∧ tim.getD i 0 ≠ 0 ∧
            distU ((userAt db idx).timing.getD i 0) (tim.getD i 0) * 100 /
              (userAt db idx).timing.getD i 0 ≤ 40)) := by
  intro db id pat tim idx hfind hc i hi
  rw [validateLogin_pattern_ok hfind hc]
  rcases Nat.lt_or_ge ((segList (userAt db idx).timing tim).count true) 2 with hm | hm
  · rw [if_pos hm]
    show (segList (userAt db idx).timing tim).getD i false = true ↔ _
    rw [segList_getD hi, segMatch_eq_true]
  · rw [if_neg (Nat.not_lt.mpr hm)]
    show (segList (userAt db idx).timing tim).getD i false = true ↔ _
    rw [segList_getD hi, segMatch_eq_true]

/-- Witness for C3 at a concrete store and segment: account 12, matching
pattern, segment 0 with stored duration 300 and submitted duration 320. -/
theorem c3_segment_tolerance_witness :
    ((validateLogin dbFresh 12 [1, 2, 3, 4, 5] [320, 300, 300, 300]).2.seg.getD 0 false = true ↔
      ((userAt dbFresh 0).timing.getD 0 0 ≠ 0 ∧
        ([320, 300, 300, 300] : List Nat).getD 0 0 ≠ 0 ∧
        distU ((userAt dbFresh 0).timing.getD 0 0)
            (([320, 300, 300, 300] : List Nat).getD 0 0) * 100 /
          (userAt dbFresh 0).timing.getD 0 0 ≤ 40)) :=
  c3_segment_tolerance dbFresh 12 [1, 2, 3, 4, 5] [320, 300, 300, 300] 0
    (by decide) (by decide) 0 (by decide)

/-- Claim C4: for every validation whose pattern gate passes,
`ValidateLogin` returns Fail when fewer than 2 timing segments match;
otherwise it returns Success, and it sets the warning flag if and only if
the number of matched segments is at least 2 but less than 4 (not every
segment matched). -/
theorem c4_quorum_and_warning :
    ∀ (db : DB) (id : Int) (pat tim : List Nat) (idx : Nat),
      findUser db id = some idx →
      comparePatterns (userAt db idx).pattern pat = true →
      (((validateLogin db id pat tim).2.ok = true ↔
          2 ≤ ((validateLogin db id pat tim).2.seg).count true) ∧
       ((validateLogin db id pat tim).2.warning = true ↔
          (2 ≤ ((validateLogin db id pat tim).2.seg).count true ∧
            ((validateLogin db id pat tim).2.seg).count true < 4))) := by
  intro db id pat tim idx hfind hc
  rw [validateLogin_pattern_ok hfind hc]
  rcases Nat.lt_or_ge ((segList (userAt db idx).timing tim).count true) 2 with hm | hm
  · rw [if_pos hm]
    show (false = true ↔ 2 ≤ (segList (userAt db idx).timing tim).count true) ∧
      (false = true ↔ (2 ≤ (segList (userAt db idx).timing tim).count true ∧
        (segList (userAt db idx).timing tim).count true < 4))
    constructor
    · constructor
      · intro h; cases h
      · intro h; exact absurd h (by omega)
    · constructor
      · intro h; cases h
      · intro h; exact absurd h.1 (by omega)
  · rw [if_neg (Nat.not_lt.mpr hm)]
    show (true = true ↔ 2 ≤ (segList (userAt db idx).timing tim).count true) ∧
      (decide ((segList (userAt db idx).timing tim).count true < 4) = true ↔
        (2 ≤ (segList (userAt db idx).timing tim).count true ∧
          (segList (userAt db idx).timing tim).count true < 4))
    constructor
    · exact ⟨fun _ => hm, fun _ => rfl⟩
    · constructor
      · intro h; exact ⟨hm, of_decide_eq_true h⟩
      · intro h; exact decide_eq_true h.2

/-- Witness for C4 at a concrete store: account 12, matching pattern, all
four segments matching (count 4, so Success without warning). -/
theorem c4_quorum_and_warning_witness :
    (((validateLogin dbFresh 12 [1, 2, 3, 4, 5] [300, 300, 300, 300]).2.ok = true ↔
        2 ≤ ((validateLogin dbFresh 12 [1, 2, 3, 4, 5] [300, 300, 300, 300]).2.seg).count true) ∧
     ((validateLogin dbFresh 12 [1, 2, 3, 4, 5] [300, 300, 300, 300]).2.warning = true ↔
        (2 ≤ ((validateLogin dbFresh 12 [1, 2, 3, 4, 5] [300, 300, 300, 300]).2.seg).count true ∧
          ((validateLogin dbFresh 12 [1, 2, 3, 4, 5] [300, 300, 300, 300]).2.seg).count true < 4))) :=
  c4_quorum_and_warning dbFresh 12 [1, 2, 3, 4, 5] [300, 300, 300, 300] 0
    (by decide) (by decide)

/-- Counterexample to claim C1 as stated: the DELETE flow performs
validation, yet for an account whose `failedAttempts` counter is 3 it still
compares the stored pattern against the submitted credentials — two stores
identical except for the locked account's stored pattern produce different
delete-flow outcomes (deleted versus authentication failure), so the
attempt is not short-circuited after lookup in that flow. -/
theorem c1_counterexample :
    (userAt dbLockedA 0).failedAttempts = 3 ∧
    findUser dbLockedA 12 = some 0 ∧
    (userAt dbLockedB 0).failedAttempts = 3 ∧
    findUser dbLockedB 12 = some 0 ∧
    dbLockedA.users.map (fun u => u.failedAttempts) =
      dbLockedB.users.map (fun u => u.failedAttempts) ∧
    (deleteFlow dbLockedA 12 [1, 2, 3, 4, 5] [300, 300, 300, 300] true).2 =
      DeleteOutcome.deleted ∧
    (deleteFlow dbLockedB 12 [1, 2, 3, 4, 5] [300, 300, 300, 300] true).2 =
      DeleteOutcome.authFailed := by
  decide

/-- Claim C1 as amended: in the LOGIN flow, for every account whose
`failedAttempts` counter has reached 3, every validation attempt for that
id is short-circuited after lookup — the flow returns the Locked outcome
with the store unchanged, independent of the submitted credentials (the
DELETE flow, by contrast, performs full validation regardless of the
counter). -/
theorem c1_login_locked_short_circuit :
    ∀ (db : DB) (id : Int) (pat tim : List Nat) (idx : Nat),
      findUser db id = some idx →
      3 ≤ (userAt db idx).failedAttempts →
      loginFlow db id pat tim = (db, LoginOutcome.locked) := by
  intro db id pat tim idx hfind hlock
  unfold loginFlow
  rw [hfind]
  simp only [if_pos hlock]

/-- Witness for the amended C1 at a concrete store: account 12 locked,
arbitrary submitted credentials, login flow reports Locked and leaves the
store untouched. -/
theorem c1_login_locked_short_circuit_witness :
    loginFlow dbLockedA 12 [9, 9, 9, 9, 9] [1, 1, 1, 1] =
      (dbLockedA, LoginOutcome.locked) :=
  c1_login_locked_short_circuit dbLockedA 12 [9, 9, 9, 9, 9] [1, 1, 1, 1] 0
    (by decide) (by decide)

/-- Counterexample to claim C5 as stated: the DELETE flow performs
validation, yet a Fail outcome for a found, unlocked account leaves its
`failedAttempts` counter unchanged (0 before and after) instead of
incrementing it. -/
theorem c5_counterexample :
    findUser dbFresh 12 = some 0 ∧
    (userAt dbFresh 0).failedAttempts = 0 ∧
    (validateLogin dbFresh 12 [2, 1, 3, 4, 5] [300, 300, 300, 300]).2.ok = false ∧
    (deleteFlow dbFresh 12 [2, 1, 3, 4, 5] [300, 300, 300, 300] true).2 =
      DeleteOutcome.authFailed ∧
    (userAt (deleteFlow dbFresh 12 [2, 1, 3, 4, 5] [300, 300, 300, 300] true).1 0).failedAttempts
      = 0 := by
  decide

/-- Claim C5 as amended: in the LOGIN flow, for every validation attempt
against a found, unlocked account, a Fail outcome increments the account's
`failedAttempts` counter by one, and a Success outcome (with or without
warning) resets `failedAttempts` to 0 and sets the account's `loggedIn`
flag (the DELETE flow performs validation without touching the counter or
the flag). -/
theorem c5_login_attempt_counter :
    ∀ (db : DB) (id : Int) (pat tim : List Nat) (idx : Nat),
      findUser db id = some idx →
      (userAt db idx).failedAttempts < 3 →
      (((validateLogin db id pat tim).2.ok = true →
          userAt (loginFlow db id pat tim).1 idx =
            { userAt db idx with failedAttempts := 0, isLoggedIn := true }) ∧
       ((validateLogin db id pat tim).2.ok = false →
          userAt (loginFlow db id pat tim).1 idx =
            { userAt db idx with
                failedAttempts := (userAt db idx).failedAttempts + 1 })) := by
  intro db id pat tim idx hfind hlt
  have hidx : idx < db.users.length := (scanIdx_some_spec hfind).1
  have hnl : ¬ 3 ≤ (userAt db idx).failedAttempts := by omega
  unfold loginFlow
  rw [hfind]
  dsimp only
  rw [if_neg hnl]
  simp only [validateLogin_fst]
  constructor
  · intro hok
    rw [hok, if_pos rfl]
    unfold userAt
    rw [getD_set_self hidx]
  · intro hok
    rw [hok, if_neg Bool.false_ne_true]
    unfold userAt
    rw [getD_set_self hidx]
    have hmod : ((db.users.getD idx clearedUser).failedAttempts + 1) % 256 =
        (db.users.getD idx clearedUser).failedAttempts + 1 := by
      have h3 : (db.users.getD idx clearedUser).failedAttempts < 3 := hlt
      omega
    rw [hmod]

/-- Witness for the amended C5 at a concrete store: a successful login for
account 12 resets the counter and sets the session flag. -/
theorem c5_login_attempt_counter_witness :
    userAt (loginFlow dbFresh 12 [1, 2, 3, 4, 5] [300, 300, 300, 300]).1 0 =
      { userAt dbFresh 0 with failedAttempts := 0, isLoggedIn := true } :=
  (c5_login_attempt_counter dbFresh 12 [1, 2, 3, 4, 5] [300, 300, 300, 300] 0
    (by decide) (by decide)).1 (by decide)

theorem activeCount_le {db : DB} : activeCount db ≤ db.users.length :=
  List.countP_le_length _

theorem firstFree_some_of_not_full {db : DB} (hlen : db.users.length = 10)
    (hact : activeCount db < 10) : ∃ i, firstFree db = some i := by
  cases hfree : firstFree db with
  | some i => exact ⟨i, rfl⟩
  | none =>
    exfalso
    have hall := scanIdx_eq_none.mp hfree
    have hfill : db.users.countP (fun u => u.isActive) = db.users.length := by
      rw [List.countP_eq_length]
      intro a ha
      have h2 := hall a ha
      simpa using h2
    unfold activeCount at hact
    omega

/-- Claim C6: `RegisterUser` returns failure exactly when the table already
holds 10 active records or an active record with the given id already
exists; otherwise it stores the id, pattern, and timing in the lowest-index
free slot, marks it active with `failedAttempts` 0 and `loggedIn` false,
increments the count, and returns success. -/
theorem c6_register_spec :
    ∀ (db : DB) (id : Int) (pat tim : List Nat),
      Inv db →
      ((((registerUser db id pat tim).2 = false) ↔
          (activeCount db = 10 ∨ findUser db id ≠ none)) ∧
       (activeCount db ≠ 10 → findUser db id = none →
          ∃ i, firstFree db = some i ∧
            registerUser db id pat tim =
              ({ users := db.users.set i (mkUser id pat tim),
                 count := db.count + 1 }, true))) := by
  intro db id pat tim hinv
  obtain ⟨hlen, hcount⟩ := hinv
  have hle : activeCount db ≤ 10 := hlen ▸ activeCount_le
  constructor
  · by_cases h10 : 10 ≤ db.count
    · have hfull : activeCount db = 10 := by omega
      simp only [registerUser, if_pos h10]
      simp [hfull]
    · cases hfind : findUser db id with
      | some j =>
        simp [registerUser, h10, hfind]
      | none =>
        have hactlt : activeCount db < 10 := by omega
        obtain ⟨i, hfree⟩ := firstFree_some_of_not_full hlen hactlt
        simp only [registerUser, if_neg h10, hfind, hfree]
        simp
        omega
  · intro hact hfind
    have h10 : ¬ 10 ≤ db.count := by omega
    obtain ⟨i, hfree⟩ := firstFree_some_of_not_full hlen (by omega)
    refine ⟨i, hfree, ?_⟩
    simp only [registerUser, if_neg h10, hfind, hfree]

/-- Witness for C6 at the empty store: registering account 12 does not
fail. -/
theorem c6_register_spec_witness :
    ((registerUser initDB 12 [1, 2, 3, 4, 5] [300, 300, 300, 300]).2 = false) ↔
      (activeCount initDB = 10 ∨ findUser initDB 12 ≠ none) :=
  (c6_register_spec initDB 12 [1, 2, 3, 4, 5] [300, 300, 300, 300] (by decide)).1

theorem inv_set_preserve {db : DB} {i : Nat} {u : User} (h : Inv db)
    (hi : i < db.users.length)
    (hact : u.isActive = (db.users.getD i clearedUser).isActive) :
    Inv { users := db.users.set i u, count := db.count } := by
  refine ⟨by simpa using h.1, ?_⟩
  show db.count = (db.users.set i u).countP User.isActive
  rw [@countP_set_same User User.isActive db.users i u clearedUser hi hact]
  exact h.2

theorem inv_registerUser (db : DB) (id : Int) (pat tim : List Nat) (h : Inv db) :
    Inv (registerUser db id pat tim).1 := by
  unfold registerUser
  by_cases h10 : 10 ≤ db.count
  · rw [if_pos h10]; exact h
  · rw [if_neg h10]
    cases hfind : findUser db id with
    | some j => exact h
    | none =>
      cases hfree : firstFree db with
      | none => exact h
      | some i =>
        obtain ⟨hi, hp, _⟩ := scanIdx_some_spec hfree
        show Inv { users := db.users.set i (mkUser id pat tim), count := db.count + 1 }
        refine ⟨by simpa using h.1, ?_⟩
        show db.count + 1 = (db.users.set i (mkUser id pat tim)).countP User.isActive
        have hold : (db.users.getD i clearedUser).isActive = false := by simpa using hp
        have hnew : (mkUser id pat tim).isActive = true := rfl
        rw [@countP_set_activate User User.isActive db.users i (mkUser id pat tim) clearedUser
          hi hold hnew]
        have h2 : db.count = db.users.countP User.isActive := h.2
        omega

theorem inv_deleteUser (db : DB) (id : Int) (h : Inv db) : Inv (deleteUser db id).1 := by
  unfold deleteUser
  cases hfind : findUser db id with
  | none => exact h
  | some i =>
    obtain ⟨hi, hp, _⟩ := scanIdx_some_spec hfind
    have hold : (db.users.getD i clearedUser).isActive = true :=
      ((Bool.and_eq_true _ _).mp hp).1
    show Inv { users := db.users.set i clearedUser, count := db.count - 1 }
    refine ⟨by simpa using h.1, ?_⟩
    show db.count - 1 = (db.users.set i clearedUser).countP User.isActive
    have hdec := @countP_set_deactivate User User.isActive db.users i clearedUser clearedUser
      hi hold (show clearedUser.isActive = false from rfl)
    have h2 : db.count = db.users.countP User.isActive := h.2
    omega

theorem inv_unlockUser (db : DB) (id : Int) (h : Inv db) : Inv (unlockUser db id).1 := by
  unfold unlockUser
  cases hfind : findUser db id with
  | none => exact h
  | some i =>
    obtain ⟨hi, _, _⟩ := scanIdx_some_spec hfind
    exact inv_set_preserve h hi rfl

theorem inv_loginFlow (db : DB) (id : Int) (pat tim : List Nat) (h : Inv db) :
    Inv (loginFlow db id pat tim).1 := by
  unfold loginFlow
  cases hfind : findUser db id with
  | none => exact h
  | some idx =>
    have hidx : idx < db.users.length := (scanIdx_some_spec hfind).1
    by_cases hlock : 3 ≤ (userAt db idx).failedAttempts
    · dsimp only
      rw [if_pos hlock]
      exact h
    · dsimp only
      rw [if_neg hlock]
      simp only [validateLogin_fst]
      cases hok : (validateLogin db id pat tim).2.ok with
      | true =>
        rw [if_pos rfl]
        exact inv_set_preserve h hidx rfl
      | false =>
        rw [if_neg Bool.false_ne_true]
        exact inv_set_preserve h hidx rfl

theorem inv_deleteFlow (db : DB) (id : Int) (pat tim : List Nat) (confirm : Bool)
    (h : Inv db) : Inv (deleteFlow db id pat tim confirm).1 := by
  unfold deleteFlow
  by_cases hz : db.count = 0
  · rw [if_pos hz]; exact h
  · rw [if_neg hz]
    cases hfind : findUser db id with
    | none => exact h
    | some j =>
      dsimp only
      simp only [validateLogin_fst]
      cases hok : (validateLogin db id pat tim).2.ok with
      | true =>
        rw [if_pos rfl]
        cases confirm with
        | true => exact inv_deleteUser db id h
        | false => exact h
      | false =>
        rw [if_neg Bool.false_ne_true]
        exact h

theorem inv_applyOp (db : DB) (op : Op) (h : Inv db) : Inv (applyOp db op) := by
  cases op with
  | register id pat tim => exact inv_registerUser db id pat tim h
  | delete id => exact inv_deleteUser db id h
  | unlock id => exact inv_unlockUser db id h
  | validate id pat tim =>
    show Inv (validateLogin db id pat tim).1
    rw [validateLogin_fst]
    exact h
  | login id pat tim => exact inv_loginFlow db id pat tim h
  | remove id pat tim confirm => exact inv_deleteFlow db id pat tim confirm h

theorem inv_foldl (ops : List Op) : ∀ db : DB, Inv db → Inv (ops.foldl applyOp db) := by
  induction ops with
  | nil => intro db h; exact h
  | cons op rest ih => intro db h; exact ih _ (inv_applyOp db op h)

/-- Claim C7: the invariant that `userCount` equals the number of active
slots in the 10-slot table holds after initialization and is preserved by
every store operation (insert, delete, unlock, bare validation, and the
login and delete flows that perform validation), hence along every
sequence of such operations. -/
theorem c7_count_invariant :
    Inv initDB ∧
    (∀ (db : DB) (op : Op), Inv db → Inv (applyOp db op)) ∧
    (∀ ops : List Op, Inv (ops.foldl applyOp initDB)) :=
  ⟨by decide, fun db op h => inv_applyOp db op h,
   fun ops => inv_foldl ops initDB (by decide)⟩

/-- Witness for C7: one concrete step — registering account 12 into the
freshly initialized store — preserves the invariant. -/
theorem c7_count_invariant_witness :
    Inv (applyOp initDB (Op.register 12 [1, 2, 3, 4, 5] [300, 300, 300, 300])) :=
  c7_count_invariant.2.1 initDB (Op.register 12 [1, 2, 3, 4, 5] [300, 300, 300, 300])
    (by decide)

theorem getD_map_range {α : Type} {f : Nat → α} {n i : Nat} {d : α} (h : i < n) :
    ((List.range n).map f).getD i d = f i := by
  rw [List.getD_eq_getElem _ _ (by simpa using h)]
  simp

/-- Counterexample to claim C9 as stated: `RegisterUser` accepts a timing
vector containing zeros (no check is performed), but a zero stored duration
makes the corresponding segment an unconditional mismatch in
`ValidateLogin`, so self-validation of an account registered with the
all-zero timing vector fails instead of succeeding with all segments
matching. -/
theorem c9_counterexample :
    (registerUser initDB 12 [1, 2, 3, 4, 5] [0, 0, 0, 0]).2 = true ∧
    (validateLogin (registerUser initDB 12 [1, 2, 3, 4, 5] [0, 0, 0, 0]).1 12
        [1, 2, 3, 4, 5] [0, 0, 0, 0]).2.ok = false ∧
    (validateLogin (registerUser initDB 12 [1, 2, 3, 4, 5] [0, 0, 0, 0]).1 12
        [1, 2, 3, 4, 5] [0, 0, 0, 0]).2.seg = List.replicate 4 false := by
  decide

/-- Claim C9 as amended: for every id, pattern, and timing vector accepted
by `RegisterUser`, provided every one of the four timing durations is
nonzero, immediately calling `ValidateLogin` with that same id, the
identical pattern, and the identical timing vector returns Success with all
four segments marked as matching. -/
theorem c9_register_validate_roundtrip :
    ∀ (db : DB) (id : Int) (pat tim : List Nat) (db2 : DB),
      registerUser db id pat tim = (db2, true) →
      (∀ i, i < 4 → tim.getD i 0 ≠ 0) →
      (validateLogin db2 id pat tim).2 =
        { ok := true, warning := false, seg := List.replicate 4 true } := by
  intro db id pat tim db2 hreg htim
  unfold registerUser at hreg
  by_cases h10 : 10 ≤ db.count
  · rw [if_pos h10] at hreg
    exact absurd (congrArg Prod.snd hreg) (by simp)
  · rw [if_neg h10] at hreg
    cases hfind : findUser db id with
    | some j =>
      simp only [hfind] at hreg
      exact absurd (congrArg Prod.snd hreg) (by simp)
    | none =>
      simp only [hfind] at hreg
      cases hfree : firstFree db with
      | none =>
        simp only [hfree] at hreg
        exact absurd (congrArg Prod.snd hreg) (by simp)
      | some i =>
        simp only [hfree] at hreg
        have hdb2 : (⟨db.users.set i (mkUser id pat tim), db.count + 1⟩ : DB) = db2 :=
          congrArg Prod.fst hreg
        obtain ⟨hilen, hfreeP, _⟩ := scanIdx_some_spec hfree
        have hnone := scanIdx_eq_none.mp hfind
        have hfind2 : findUser db2 id = some i := by
          rw [← hdb2]
          show scanIdx _ (db.users.set i (mkUser id pat tim)) = some i
          apply scanIdx_set_self hilen
          · intro j hj
            apply hnone
            have hjlen : j < db.users.length := lt_trans hj hilen
            rw [List.getD_eq_getElem _ _ hjlen]
            exact List.getElem_mem hjlen
          · show ((mkUser id pat tim).isActive && ((mkUser id pat tim).userId == id)) = true
            simp [mkUser]
        have huser : userAt db2 i = mkUser id pat tim := by
          rw [← hdb2]
          show (db.users.set i (mkUser id pat tim)).getD i clearedUser = mkUser id pat tim
          exact getD_set_self hilen
        have hcomp : comparePatterns (userAt db2 i).pattern pat = true := by
          rw [huser, comparePatterns_eq_true]
          intro k hk
          show ((List.range 5).map (fun j => pat.getD j 0)).getD k 0 = pat.getD k 0
          exact getD_map_range hk
        have hone : ∀ k, k < 4 →
            segMatch ((mkUser id pat tim).timing.getD k 0) (tim.getD k 0) = true := by
          intro k hk
          have hst : (mkUser id pat tim).timing.getD k 0 = tim.getD k 0 := getD_map_range hk
          rw [hst, segMatch_eq_true]
          exact ⟨htim k hk, htim k hk, by simp [distU]⟩
        have hseg : segList (userAt db2 i).timing tim = List.replicate 4 true := by
          rw [huser]
          show (List.range 4).map
            (fun k => segMatch ((mkUser id pat tim).timing.getD k 0) (tim.getD k 0)) = _
          rw [show List.range 4 = [0, 1, 2, 3] from rfl]
          simp only [List.map_cons, List.map_nil]
          rw [hone 0 (by omega), hone 1 (by omega), hone 2 (by omega), hone 3 (by omega)]
          rfl
        rw [validateLogin_pattern_ok hfind2 hcomp, hseg]
        rw [if_neg (by decide : ¬((List.replicate 4 true).count true < 2))]
        rfl

/-- Witness for the amended C9: registering account 12 with nonzero
timings into the empty store and validating with the identical credentials
yields Success with all segments matching. -/
theorem c9_register_validate_roundtrip_witness :
    (validateLogin (registerUser initDB 12 [1, 2, 3, 4, 5] [300, 400, 500, 600]).1 12
        [1, 2, 3, 4, 5] [300, 400, 500, 600]).2 =
      { ok := true, warning := false, seg := List.replicate 4 true } :=
  c9_register_validate_roundtrip initDB 12 [1, 2, 3, 4, 5] [300, 400, 500, 600]
    (registerUser initDB 12 [1, 2, 3, 4, 5] [300, 400, 500, 600]).1
    (by decide) (by decide)

theorem foldl_maxStep_mem {aggr : List Nat} :
    ∀ (l : List Nat) (acc : Nat × Option Nat) (i : Nat),
      (l.foldl (maxStep aggr) acc).2 = some i → acc.2 = some i ∨ i ∈ l := by
  intro l
  induction l with
  | nil => intro acc i h; exact Or.inl h
  | cons a rest ih =>
    intro acc i h
    rcases ih (maxStep aggr acc a) i h with hacc | hmem
    · unfold maxStep at hacc
      by_cases hc : acc.1 < aggr.getD a 0
      · rw [if_pos hc] at hacc
        have : a = i := by simpa using hacc
        exact Or.inr (this ▸ List.mem_cons_self a rest)
      · rw [if_neg hc] at hacc
        exact Or.inl hacc
    · exact Or.inr (List.mem_cons_of_mem a hmem)

theorem findMaxButton_lt {aggr : List Nat} {i : Nat}
    (h : findMaxButton aggr = some i) : i < 5 := by
  rcases foldl_maxStep_mem (List.range 5) (6, none) i h with h6 | hm
  · cases h6
  · simpa using List.mem_range.mp hm

theorem contains_eq_false_mem {l : List Nat} {a : Nat}
    (h : l.contains a = false) : a ∉ l := by
  intro hmem
  have hc : l.contains a = true := by
    have hiff : l.contains a = true ↔ a ∈ l := by simp [List.contains]
    exact hiff.mpr hmem
  rw [h] at hc
  cases hc

theorem capStep_pat (s : CapState) (r : List Bool) :
    (capStep s r).pat = s.pat ∨
    ∃ cb, findMaxButton (updAggr s.aggr r) = some cb ∧
      (some cb != s.lastButton) = true ∧ s.pat.contains (cb + 1) = false ∧
      (capStep s r).pat = s.pat ++ [cb + 1] := by
  unfold capStep
  cases hf : findMaxButton (updAggr s.aggr r) with
  | none => left; rfl
  | some cb =>
    dsimp only
    by_cases hcond : ((some cb != s.lastButton) && !(s.pat.contains (cb + 1))) = true
    · right
      obtain ⟨h1, h2⟩ := (Bool.and_eq_true _ _).mp hcond
      refine ⟨cb, rfl, h1, by simpa using h2, ?_⟩
      rw [if_pos hcond]
      rfl
    · left
      rw [if_neg hcond]

theorem capStep_inv {s : CapState} {r : List Bool} (h : CapInv s) :
    CapInv (capStep s r) := by
  rcases capStep_pat s r with heq | ⟨cb, hf, _, hnotin, heq⟩
  · exact ⟨heq ▸ h.1, heq ▸ h.2⟩
  · constructor
    · rw [heq]
      exact nodup_append_singleton h.1 (contains_eq_false_mem hnotin)
    · rw [heq]
      intro x hx
      rcases List.mem_append.mp hx with hx | hx
      · exact h.2 x hx
      · have hxeq : x = cb + 1 := List.mem_singleton.mp hx
        have hcb : cb < 5 := findMaxButton_lt hf
        omega

theorem capStep_len (s : CapState) (r : List Bool) :
    (capStep s r).pat.length ≤ s.pat.length + 1 := by
  rcases capStep_pat s r with heq | ⟨cb, _, _, _, heq⟩
  · rw [heq]; omega
  · rw [heq]; simp

theorem collectPatternAux_spec :
    ∀ (trace : List (List Bool)) (s : CapState) (p t : List Nat),
      CapInv s → s.pat.length ≤ 5 →
      collectPatternAux s trace = some (p, t) →
      p.length = 5 ∧ p.Nodup ∧ ∀ x ∈ p, 1 ≤ x ∧ x ≤ 5 := by
  intro trace
  induction trace with
  | nil =>
    intro s p t hinv hlen h
    unfold collectPatternAux at h
    by_cases h5 : 5 ≤ s.pat.length
    · rw [if_pos h5] at h
      simp only [Option.some.injEq, Prod.mk.injEq] at h
      obtain ⟨hp, ht⟩ := h
      subst hp
      exact ⟨by omega, hinv.1, hinv.2⟩
    · rw [if_neg h5] at h
      cases h
  | cons r rest ih =>
    intro s p t hinv hlen h
    unfold collectPatternAux at h
    by_cases h5 : 5 ≤ s.pat.length
    · rw [if_pos h5] at h
      simp only [Option.some.injEq, Prod.mk.injEq] at h
      obtain ⟨hp, ht⟩ := h
      subst hp
      exact ⟨by omega, hinv.1, hinv.2⟩
    · rw [if_neg h5] at h
      have hstep := capStep_len s r
      exact ih (capStep s r) p t (capStep_inv hinv) (by omega) h

/-- Claim C8: for every input trace, when the pattern-capture loop returns,
the produced sequence contains exactly 5 channel identifiers, each in
[1..5], with no identifier occurring twice; and a candidate channel equal
to the immediately preceding accepted channel or already present in the
sequence is never accepted (the pattern is left unchanged by that tick). -/
theorem c8_collect_pattern_invariants :
    (∀ (trace : List (List Bool)) (p t : List Nat),
        collectPattern trace = some (p, t) →
        p.length = 5 ∧ p.Nodup ∧ ∀ x ∈ p, 1 ≤ x ∧ x ≤ 5) ∧
    (∀ (s : CapState) (r : List Bool) (cb : Nat),
        findMaxButton (updAggr s.aggr r) = some cb →
        (some cb = s.lastButton ∨ (cb + 1) ∈ s.pat) →
        (capStep s r).pat = s.pat) := by
  constructor
  · intro trace p t h
    exact collectPatternAux_spec trace initCap p t
      (by constructor <;> simp [initCap]) (by simp [initCap]) h
  · intro s r cb hf hrej
    unfold capStep
    rw [hf]
    dsimp only
    have hcond : ((some cb != s.lastButton) && !(s.pat.contains (cb + 1))) = false := by
      rcases hrej with hlast | hmem
      · have : (some cb != s.lastButton) = false := by simp [hlast]
        rw [this]
        rfl
      · have : s.pat.contains (cb + 1) = true := by
          have hiff : s.pat.contains (cb + 1) = true ↔ (cb + 1) ∈ s.pat := by
            simp [List.contains]
          exact hiff.mpr hmem
        rw [this]
        simp
    rw [if_neg (by rw [hcond]; exact Bool.false_ne_true)]

/-- Witness for C8: the concrete swipe trace over channels 1..5 completes
the capture with pattern [1,2,3,4,5] (length 5, no repeats, all in range),
and one concrete rejection tick: channel 0 detected again while it is the
last accepted channel leaves the pattern unchanged. -/
theorem c8_collect_pattern_invariants_witness :
    (([1, 2, 3, 4, 5] : List Nat).length = 5 ∧
      ([1, 2, 3, 4, 5] : List Nat).Nodup ∧
      ∀ x ∈ ([1, 2, 3, 4, 5] : List Nat), 1 ≤ x ∧ x ≤ 5) ∧
    (capStep
        { pat := [1], tim := [], aggr := [10, 0, 0, 0, 0]
          lastButton := some 0, lastButtonTime := 3, currentTime := 7 }
        [true, false, false, false, false]).pat = [1] :=
  ⟨c8_collect_pattern_invariants.1 swipeTrace [1, 2, 3, 4, 5] [100, 100, 100, 100]
      (by decide),
   c8_collect_pattern_invariants.2
      { pat := [1], tim := [], aggr := [10, 0, 0, 0, 0]
        lastButton := some 0, lastButtonTime := 3, currentTime := 7 }
      [true, false, false, false, false] 0 (by decide) (Or.inl (by decide))⟩

end Pic24
